import Mathlib

/-! Public organisation API: retrieval and mapping of the organisation aggregate.

A shallow embedding of `organisation/cypher.go` (the read service and the
aggregate mapper) and of `organisations/handlers.go` (the HTTP handler with its
redirect policy), followed by the properties proved about them.

Conventions of the embedding

* A Go `string` is a Lean `String`; the helpers of package `strings` and the
  regular expression work on the list of characters of the string.
* A Go `error` is an `Option String`: `none` is the nil error, `some msg` an
  error whose `Error()` text is `msg`.
* A Go slice that the code produces is a `Slice`: `none` is the nil slice,
  `some xs` a non-nil slice with elements `xs`.  Slices that are only read
  (`len`, `range`, indexing) are plain lists.
* A Go pointer is an `Option`: `none` is the nil pointer.
* A function that can panic (index out of range) returns an `Option`; `none` is
  the panic.
* Logging calls have no effect on the results and are left out.
-/

set_option autoImplicit false

namespace PublicOrganisationApi

/-! ## Data model -/

/-- A Go slice value: `none` is the nil slice, `some xs` is a non-nil slice. -/
abbrev Slice (α : Type) : Type := Option (List α)

/-- A Go `error` value: `none` is nil, `some msg` carries the error text. -/
abbrev GoError : Type := Option String

/-- Modelled from the spec: the declaration of `Thing` (file `model.go`, not
among the sources); the fields are those `cypher.go` assigns and `handlers.go`
reads. -/
structure Thing where
  ID : String
  APIURL : String
  PrefLabel : String
deriving DecidableEq, Repr

/-- Modelled from the spec: the declaration of `ChangeEvent` (file `model.go`,
not among the sources): a start timestamp and an end timestamp. -/
structure ChangeEvent where
  StartedAt : String
  EndedAt : String
deriving DecidableEq, Repr

/-- Modelled from the spec: the declaration of `Person` (file `model.go`, not
among the sources): an embedded `*Thing` and the type URIs. -/
structure Person where
  Thing : Option PublicOrganisationApi.Thing
  Types : Slice String
deriving DecidableEq, Repr

/-- Modelled from the spec: the declaration of `Membership` (file `model.go`,
not among the sources): title, person and a pointer to the change events. -/
structure Membership where
  Title : String
  Person : PublicOrganisationApi.Person
  ChangeEvents : Option (List ChangeEvent)
deriving DecidableEq, Repr

/-- Modelled from the spec: the declaration of `Organisation` (file `model.go`,
not among the sources): an embedded `*Thing`, type URIs, legal-entity code,
a pointer to the alias labels and the memberships.  Parent and subsidiaries
are never assigned by `cypher.go` and are left out. -/
structure Organisation where
  Thing : Option PublicOrganisationApi.Thing
  Types : Slice String
  LEICode : String
  Labels : Option (List String)
  Memberships : Slice Membership
deriving DecidableEq, Repr

/-- The zero value `Organisation{}`. -/
def Organisation.zero : Organisation :=
  { Thing := none, Types := none, LEICode := "", Labels := none, Memberships := none }

/-- The promoted field `organisation.ID`, read through the embedded `*Thing`;
the read through a nil pointer panics. -/
def Organisation.ID (o : Organisation) : Option String :=
  match o.Thing with
  | some t => some t.ID
  | none => none

/-- The functions of the external package `mapper` that `cypher.go` calls,
taken as parameters. -/
structure Mapper where
  IDURL : String → String
  APIURL : String → List String → String
  TypeURIs : List String → Slice String

/-- Raw change event of a membership (`neoChangeEvent`). -/
structure neoChangeEvent where
  StartedAt : String
  EndedAt : String
deriving DecidableEq, Repr

/-- Field `O` of `neoReadStruct`. -/
structure neoOrganisation where
  ID : String
  Types : List String
  LEICode : String
  PrefLabel : String
  Labels : List String
deriving DecidableEq, Repr

/-- Field `Parent` of `neoReadStruct`, and the element type of `Sub`. -/
structure neoRelatedOrganisation where
  ID : String
  Types : List String
  PrefLabel : String
deriving DecidableEq, Repr

/-- Field `M` of an element of `neoReadStruct.M`: the membership node. -/
structure neoMembershipNode where
  ID : String
  Types : List String
  PrefLabel : String
  Title : String
  ChangeEvents : List neoChangeEvent
deriving DecidableEq, Repr

/-- Field `P` of an element of `neoReadStruct.M`: the person node. -/
structure neoPerson where
  ID : String
  Types : List String
  PrefLabel : String
  Labels : List String
deriving DecidableEq, Repr

/-- Element of `neoReadStruct.M`. -/
structure neoMembership where
  M : neoMembershipNode
  P : neoPerson
deriving DecidableEq, Repr

/-- The raw row `neoReadStruct`. -/
structure neoReadStruct where
  O : neoOrganisation
  Parent : neoRelatedOrganisation
  Sub : List neoRelatedOrganisation
  M : List neoMembership
deriving DecidableEq, Repr

/-! ## `organisation/cypher.go` -/

/-- The `for ... range neoChgEvts` loop of `changeEvent`: `results` is the
slice built so far. -/
def changeEventLoop : List neoChangeEvent → List ChangeEvent → List ChangeEvent
  | [], results => results
  | neoChgEvt :: rest, results =>
    let results :=
      if neoChgEvt.StartedAt ≠ "" then
        results ++ [{ StartedAt := neoChgEvt.StartedAt, EndedAt := "" }]
      else results
    let results :=
      if neoChgEvt.EndedAt ≠ "" then
        results ++ [{ StartedAt := "", EndedAt := neoChgEvt.EndedAt }]
      else results
    changeEventLoop rest results

/-- The function `changeEvent`: the flag and the slice behind the returned
pointer.  The read of `neoChgEvts[0]` panics on an empty slice. -/
def changeEvent (neoChgEvts : List neoChangeEvent) : Option (Bool × List ChangeEvent) :=
  match neoChgEvts with
  | [] => none
  | first :: _ =>
    if first.StartedAt = "" ∧ first.EndedAt = "" then
      some (false, [])
    else
      some (true, changeEventLoop neoChgEvts [])

/-- The body of the `for mIdx, neoMem := range neo.M` loop of
`neoReadStructToOrganisation`: the membership stored at `public.Memberships[mIdx]`.
The pointer `membership.ChangeEvents` stays nil unless `changeEvent` returns
the flag `true`. -/
def mapMembership (mp : Mapper) (neoMem : neoMembership) : Option Membership :=
  match changeEvent neoMem.M.ChangeEvents with
  | none => none
  | some (a, b) =>
    some
      { Title := neoMem.M.PrefLabel
        Person :=
          { Thing := some
              { ID := mp.IDURL neoMem.P.ID
                APIURL := mp.APIURL neoMem.P.ID neoMem.P.Types
                PrefLabel := neoMem.P.PrefLabel }
            Types := mp.TypeURIs neoMem.P.Types }
        ChangeEvents := if a = true then some b else none }

/-- The `for mIdx, neoMem := range neo.M` loop of `neoReadStructToOrganisation`,
run over the memberships in order: the filled `public.Memberships`. -/
def mapMemberships (mp : Mapper) : List neoMembership → Option (List Membership)
  | [] => some []
  | neoMem :: rest =>
    match mapMembership mp neoMem with
    | none => none
    | some membership =>
      match mapMemberships mp rest with
      | none => none
      | some ms => some (membership :: ms)

/-- The test `len(neo.M) == 1 && (neo.M[0].M.ID == "")`. -/
def isSentinel (m : List neoMembership) : Bool :=
  match m with
  | [neoMem] => neoMem.M.ID == ""
  | _ => false

/-- The function `neoReadStructToOrganisation`; it panics when `changeEvent`
does. -/
def neoReadStructToOrganisation (mp : Mapper) (neo : neoReadStruct) : Option Organisation :=
  let public : Organisation :=
    { Thing := some
        { ID := mp.IDURL neo.O.ID
          APIURL := mp.APIURL neo.O.ID neo.O.Types
          PrefLabel := neo.O.PrefLabel }
      Types := mp.TypeURIs neo.O.Types
      LEICode := neo.O.LEICode
      Labels := if neo.O.Labels.length > 0 then some neo.O.Labels else none
      Memberships := none }
  if isSentinel neo.M = true then
    some { public with Memberships := some [] }
  else
    match mapMemberships mp neo.M with
    | none => none
    | some ms => some { public with Memberships := some ms }

/-- One element of the result container of `Read`: `struct { Rs []neoReadStruct }`. -/
structure ReadResult where
  Rs : List neoReadStruct
deriving DecidableEq, Repr

/-- What `pcw.db.Cypher(query)` leaves behind: the returned error and the
content of the result container. -/
structure CypherOutcome where
  err : GoError
  results : List ReadResult

/-- The graph store as `Read` sees it: the outcome of the fixed statement for
the parameter `uuid`. -/
abbrev Database : Type := String → CypherOutcome

/-- The method `CypherDriver.Read`: the triple `(organisation, found, err)`. -/
def Read (mp : Mapper) (db : Database) (uuid : String) : Option (Organisation × Bool × GoError) :=
  let out := db uuid
  let results := out.results
  if out.err ≠ none then
    some (Organisation.zero, false,
      some ("Error accessing Organisation datastore for uuid: " ++ uuid))
  else
    match results with
    | [] => some (Organisation.zero, false, none)
    | r0 :: _ =>
      match r0.Rs with
      | [] => some (Organisation.zero, false, none)
      | row0 :: _ =>
        if results.length ≠ 1 ∧ r0.Rs.length ≠ 1 then
          some (Organisation.zero, true,
            some ("Multiple organisations found with the same uuid:" ++ uuid ++ " !"))
        else
          match neoReadStructToOrganisation mp row0 with
          | none => none
          | some organisation => some (organisation, true, none)

/-! ## Package `strings` and the pattern `validUUID` -/

/-- The search of `strings.Contains` on characters: does `substr` occur in the
text. -/
def containsChars (substr : List Char) : List Char → Bool
  | [] => substr.isEmpty
  | c :: cs => substr.isPrefixOf (c :: cs) || containsChars substr cs

/-- The call `strings.Contains(s, substr)`. -/
def stringsContains (s substr : String) : Bool :=
  containsChars substr.data s.data

/-- The replacement of `strings.Replace(s, old, new, 1)` on characters: the
first occurrence of `old` is replaced by `new`; a text without occurrence is
returned unchanged. -/
def replaceFirstChars (old new : List Char) : List Char → List Char
  | [] => if old.isEmpty then new else []
  | c :: cs =>
    if old.isPrefixOf (c :: cs) then new ++ (c :: cs).drop old.length
    else c :: replaceFirstChars old new cs

/-- The call `strings.Replace(s, old, new, 1)`. -/
def stringsReplace1 (s old new : String) : String :=
  ⟨replaceFirstChars old.data new.data s.data⟩

/-- The class `[0-9a-fA-F]`. -/
def isHexDigit (c : Char) : Bool :=
  (48 ≤ c.toNat && c.toNat ≤ 57) || (97 ≤ c.toNat && c.toNat ≤ 102) ||
    (65 ≤ c.toNat && c.toNat ≤ 70)

/-- The pattern `[0-9a-fA-F]{n}` at the head of the text: the rest of the text
after it, when it matches. -/
def takeHex : Nat → List Char → Option (List Char)
  | 0, cs => some cs
  | _ + 1, [] => none
  | n + 1, c :: cs => if isHexDigit c = true then takeHex n cs else none

/-- The literal `-` at the head of the text. -/
def takeDash : List Char → Option (List Char)
  | [] => none
  | c :: cs => if c = '-' then some cs else none

/-- The constant `validUUID`,
`([0-9a-fA-F]{8}-[0-9a-fA-F]{4}-[0-9a-fA-F]{4}-[0-9a-fA-F]{4}-[0-9a-fA-F]{12})$`,
matched at the head of the text: the group followed by the end of the text. -/
def matchValidUUID (cs : List Char) : Bool :=
  (takeHex 8 cs >>= takeDash >>= takeHex 4 >>= takeDash >>= takeHex 4 >>= takeDash
    >>= takeHex 4 >>= takeDash >>= takeHex 12) == some []

/-- The leftmost match of `validUUID` in the text, the empty text when there is
none (`FindString` on characters). -/
def findValidUUIDChars : List Char → List Char
  | [] => []
  | c :: cs => if matchValidUUID (c :: cs) = true then c :: cs else findValidUUIDChars cs

/-- The call `regexp.MustCompile(validUUID).FindString(s)`. -/
def findStringValidUUID (s : String) : String :=
  ⟨findValidUUIDChars s.data⟩

/-! ## `organisations/handlers.go` -/

/-- What the handler has done to its `http.ResponseWriter`: the header map,
the status code once written, and the body written so far. -/
structure ResponseWriter where
  header : List (String × String)
  status : Option Nat
  body : String
deriving DecidableEq, Repr

namespace ResponseWriter

/-- A response writer nothing has been written to. -/
def fresh : ResponseWriter :=
  { header := [], status := none, body := "" }

/-- The call `w.Header().Set(key, value)`. -/
def headerSet (w : ResponseWriter) (key value : String) : ResponseWriter :=
  { w with header := (key, value) :: w.header.filter (fun kv => kv.1 ≠ key) }

/-- The call `w.Header().Del(key)`. -/
def headerDel (w : ResponseWriter) (key : String) : ResponseWriter :=
  { w with header := w.header.filter (fun kv => kv.1 ≠ key) }

/-- The call `w.Header().Get(key)`, `none` when the key is absent. -/
def headerGet (w : ResponseWriter) (key : String) : Option String :=
  (w.header.find? (fun kv => kv.1 = key)).map (fun kv => kv.2)

/-- The call `w.WriteHeader(code)`: only the first call sets the status. -/
def WriteHeader (w : ResponseWriter) (code : Nat) : ResponseWriter :=
  match w.status with
  | some _ => w
  | none => { w with status := some code }

/-- The call `w.Write(data)`: the status defaults to 200 when none was written. -/
def Write (w : ResponseWriter) (data : String) : ResponseWriter :=
  { (w.WriteHeader 200) with body := w.body ++ data }

end ResponseWriter

/-- The call `http.Error(w, error, code)` of the standard library. -/
def httpError (w : ResponseWriter) (error : String) (code : Nat) : ResponseWriter :=
  let w := w.headerDel "Content-Length"
  let w := w.headerSet "Content-Type" "text/plain; charset=utf-8"
  let w := w.headerSet "X-Content-Type-Options" "nosniff"
  let w := w.WriteHeader code
  w.Write (error ++ "\n")

/-- The part of `*http.Request` the handler reads: the route variables
(`mux.Vars(r)`) and `r.RequestURI`. -/
structure Request where
  Vars : List (String × String)
  RequestURI : String
deriving DecidableEq, Repr

/-- The index expression `vars[key]` on a Go map: the zero value when the key
is absent. -/
def mapIndex (vars : List (String × String)) (key : String) : String :=
  match vars.find? (fun kv => kv.1 = key) with
  | some kv => kv.2
  | none => ""

/-- The method `Read` of the interface `Driver`; `none` is a panic. -/
abbrev Driver : Type := String → Option (Organisation × Bool × GoError)

/-- The function `GetOrganisation`.  The package variables `OrganisationDriver`
and `CacheControlHeader` and the JSON encoder (`Except.error` is its failure)
are parameters. -/
def GetOrganisation (OrganisationDriver : Driver) (CacheControlHeader : String)
    (jsonEncode : Organisation → Except String String)
    (w : ResponseWriter) (r : Request) : Option ResponseWriter :=
  let vars := r.Vars
  let uuid := mapIndex vars "uuid"
  let w := w.headerSet "Content-Type" "application/json; charset=UTF-8"
  if uuid = "" then
    some (httpError w "uuid required" 400)
  else
    match OrganisationDriver uuid with
    | none => none
    | some (organisation, found, err) =>
      match err with
      | some msg =>
        let w := w.WriteHeader 500
        some (w.Write ("\x7b\"message\": \"" ++ msg ++ "\"\x7d"))
      | none =>
        if found = false then
          let w := w.WriteHeader 404
          some (w.Write "\x7b\"message\":\"Organisation not found.\"\x7d")
        else
          match organisation.ID with
          | none => none
          | some ID =>
            if stringsContains ID uuid = false then
              let canonicalUUID := findStringValidUUID ID
              let redirectURL := stringsReplace1 r.RequestURI uuid canonicalUUID
              let w := w.headerSet "Location" redirectURL
              some (w.WriteHeader 301)
            else
              let w := w.headerSet "Cache-Control" CacheControlHeader
              let w := w.WriteHeader 200
              match jsonEncode organisation with
              | Except.ok out => some (w.Write out)
              | Except.error e =>
                let w := w.WriteHeader 500
                some (w.Write
                  ("\x7b\"message\":\"Organisation could not be marshelled, err=" ++ e ++
                    "\"\x7d"))

/-! ## Predicates of the statements -/

/-- The entry an optional match without membership produces, as the struct
decodes it: every field empty. -/
def isPlaceholder (neoMem : neoMembership) : Prop :=
  neoMem.M.ID = "" ∧ neoMem.M.Types = [] ∧ neoMem.M.PrefLabel = "" ∧ neoMem.M.Title = "" ∧
    (∀ evt ∈ neoMem.M.ChangeEvents, evt.StartedAt = "" ∧ evt.EndedAt = "") ∧
    neoMem.P.ID = "" ∧ neoMem.P.Types = [] ∧ neoMem.P.PrefLabel = "" ∧ neoMem.P.Labels = []

/-- Exactly one of the two temporal fields of a change event is set. -/
def ChangeEvent.exactlyOne (ce : ChangeEvent) : Prop :=
  (ce.StartedAt ≠ "" ∧ ce.EndedAt = "") ∨ (ce.StartedAt = "" ∧ ce.EndedAt ≠ "")

/-! ## Sample data -/

/-- A stand-in for package `mapper`, used where the code is evaluated on
concrete rows. -/
def sampleMapper : Mapper :=
  { IDURL := fun id => "http://api.ft.com/things/" ++ id
    APIURL := fun id _ => "http://api.ft.com/organisations/" ++ id
    TypeURIs := fun types => some types }

/-- A membership entry with the given node identifier, person identifier and
change events; every other field is empty. -/
def sampleMembership (mID pID : String) (evts : List neoChangeEvent) : neoMembership :=
  { M := { ID := mID, Types := [], PrefLabel := "", Title := "", ChangeEvents := evts }
    P := { ID := pID, Types := [], PrefLabel := "", Labels := [] } }

/-- A raw row with the given root identifier, preferred label and memberships;
every other field is empty. -/
def sampleRow (oID prefLabel : String) (m : List neoMembership) : neoReadStruct :=
  { O := { ID := oID, Types := [], LEICode := "", PrefLabel := prefLabel, Labels := [] }
    Parent := { ID := "", Types := [], PrefLabel := "" }
    Sub := []
    M := m }

/-- A driver whose `Read` finds, for every key, an organisation with the given
canonical identifier. -/
def sampleDriver (ID : String) : Driver :=
  fun _ =>
    some
      ({ Thing := some { ID := ID, APIURL := "", PrefLabel := "" }
         Types := some []
         LEICode := ""
         Labels := none
         Memberships := some [] },
        true, none)

/-- A stand-in for the JSON encoder, used where the handler is evaluated on
concrete requests. -/
def sampleEncode : Organisation → Except String String :=
  fun _ => Except.ok "\x7b\x7d\n"

/-! ## Lemmas on the change-event reconstruction -/

theorem changeEventLoop_append (evts : List neoChangeEvent) (acc : List ChangeEvent) :
    changeEventLoop evts acc = acc ++ changeEventLoop evts [] := by
  induction evts generalizing acc with
  | nil => simp [changeEventLoop]
  | cons evt rest ih =>
    simp only [changeEventLoop]
    rw [ih, ih (if evt.EndedAt ≠ "" then _ else _)]
    by_cases h1 : evt.StartedAt = "" <;> by_cases h2 : evt.EndedAt = "" <;> simp [h1, h2]

theorem changeEventLoop_exactlyOne (evts : List neoChangeEvent) (acc : List ChangeEvent)
    (hacc : ∀ ce ∈ acc, ce.exactlyOne) :
    ∀ ce ∈ changeEventLoop evts acc, ce.exactlyOne := by
  induction evts generalizing acc with
  | nil => simpa [changeEventLoop] using hacc
  | cons evt rest ih =>
    simp only [changeEventLoop]
    apply ih
    intro ce hce
    by_cases h1 : evt.StartedAt = "" <;> by_cases h2 : evt.EndedAt = "" <;>
      simp [h1, h2] at hce
    · exact hacc ce hce
    · rcases hce with hce | hce
      · exact hacc ce hce
      · subst hce; exact Or.inr ⟨rfl, h2⟩
    · rcases hce with hce | hce
      · exact hacc ce hce
      · subst hce; exact Or.inl ⟨h1, rfl⟩
    · rcases hce with hce | hce | hce
      · exact hacc ce hce
      · subst hce; exact Or.inl ⟨h1, rfl⟩
      · subst hce; exact Or.inr ⟨rfl, h2⟩

theorem changeEvent_isSome (evts : List neoChangeEvent) (h : evts ≠ []) :
    ∃ a b, changeEvent evts = some (a, b) := by
  cases evts with
  | nil => exact absurd rfl h
  | cons first rest =>
    by_cases hf : first.StartedAt = "" ∧ first.EndedAt = ""
    · exact ⟨false, [], by simp [changeEvent, hf]⟩
    · simp only [changeEvent, if_neg hf]
      exact ⟨true, _, rfl⟩

/-- The change events of the pair `[{StartedAt: s}, {EndedAt: e}]`. -/
theorem changeEvent_pair (s e : String) :
    changeEvent [{ StartedAt := s, EndedAt := "" }, { StartedAt := "", EndedAt := e }] =
      if s = "" then some (false, [])
      else if e = "" then some (true, [{ StartedAt := s, EndedAt := "" }])
      else some (true, [{ StartedAt := s, EndedAt := "" }, { StartedAt := "", EndedAt := e }]) := by
  by_cases hs : s = "" <;> by_cases he : e = "" <;>
    simp [changeEvent, changeEventLoop, hs, he]

/-! ## Lemmas on the membership loop -/

theorem mapMembership_isSome (mp : Mapper) (neoMem : neoMembership)
    (h : neoMem.M.ChangeEvents ≠ []) : ∃ mem, mapMembership mp neoMem = some mem := by
  obtain ⟨a, b, hab⟩ := changeEvent_isSome _ h
  simp only [mapMembership, hab]
  exact ⟨_, rfl⟩

theorem mapMembership_fields (mp : Mapper) (neoMem : neoMembership) (mem : Membership)
    (h : mapMembership mp neoMem = some mem) :
    mem.Title = neoMem.M.PrefLabel ∧
      mem.Person.Thing = some
        { ID := mp.IDURL neoMem.P.ID
          APIURL := mp.APIURL neoMem.P.ID neoMem.P.Types
          PrefLabel := neoMem.P.PrefLabel } ∧
      mem.Person.Types = mp.TypeURIs neoMem.P.Types ∧
      ∃ a b, changeEvent neoMem.M.ChangeEvents = some (a, b) ∧
        mem.ChangeEvents = if a = true then some b else none := by
  unfold mapMembership at h
  cases hce : changeEvent neoMem.M.ChangeEvents with
  | none => simp [hce] at h
  | some ab =>
    obtain ⟨a, b⟩ := ab
    simp only [hce, Option.some.injEq] at h
    subst h
    exact ⟨rfl, rfl, rfl, a, b, rfl, rfl⟩

theorem mapMemberships_spec (mp : Mapper) (m : List neoMembership)
    (h : ∀ neoMem ∈ m, neoMem.M.ChangeEvents ≠ []) :
    ∃ ms, mapMemberships mp m = some ms ∧ ms.length = m.length ∧
      ∀ (i : Nat) (neoMem : neoMembership), m[i]? = some neoMem →
        ∃ mem : Membership, ms[i]? = some mem ∧
        mapMembership mp neoMem = some mem := by
  induction m with
  | nil => exact ⟨[], rfl, rfl, by simp⟩
  | cons x rest ih =>
    obtain ⟨ms, hms, hlen, hidx⟩ := ih (fun y hy => h y (List.mem_cons_of_mem _ hy))
    obtain ⟨mem, hmem⟩ := mapMembership_isSome mp x (h x (List.mem_cons_self _ _))
    refine ⟨mem :: ms, by simp [mapMemberships, hmem, hms], by simp [hlen], ?_⟩
    intro i neoMem hi
    cases i with
    | zero =>
      simp at hi
      subst hi
      exact ⟨mem, by simp, hmem⟩
    | succ j =>
      simp at hi
      obtain ⟨mem2, h1, h2⟩ := hidx j neoMem hi
      exact ⟨mem2, by simpa using h1, h2⟩

theorem mapMemberships_none (mp : Mapper) (m : List neoMembership)
    (h : ∃ neoMem ∈ m, neoMem.M.ChangeEvents = []) : mapMemberships mp m = none := by
  induction m with
  | nil => simp at h
  | cons x rest ih =>
    by_cases hx : x.M.ChangeEvents = []
    · simp [mapMemberships, mapMembership, hx, changeEvent]
    · obtain ⟨y, hy, hye⟩ := h
      have hrest : mapMemberships mp rest = none := by
        apply ih
        rcases List.mem_cons.mp hy with hyx | hyr
        · subst hyx; exact absurd hye hx
        · exact ⟨y, hyr, hye⟩
      cases hmm : mapMembership mp x <;> simp [mapMemberships, hmm, hrest]

theorem neoReadStructToOrganisation_sentinel (mp : Mapper) (neo : neoReadStruct)
    (h : isSentinel neo.M = true) :
    ∃ org, neoReadStructToOrganisation mp neo = some org ∧ org.Memberships = some [] := by
  simp only [neoReadStructToOrganisation, h, if_true]
  exact ⟨_, rfl, rfl⟩

theorem neoReadStructToOrganisation_loop (mp : Mapper) (neo : neoReadStruct)
    (h : isSentinel neo.M = false) (ms : List Membership)
    (hms : mapMemberships mp neo.M = some ms) :
    ∃ org, neoReadStructToOrganisation mp neo = some org ∧ org.Memberships = some ms := by
  simp only [neoReadStructToOrganisation, h, hms]
  exact ⟨_, rfl, rfl⟩

/-! ## The read service -/

/-- C1, the code at the failing input: the store answers without error with one
result whose collected list holds two rows for the key; `Read` reports no
error and returns the aggregate mapped from the first row. -/
theorem Read_two_rows_returns_first (mp : Mapper) (uuid : String) :
    Read mp
        (fun _ =>
          { err := none
            results := [{ Rs := [sampleRow uuid "First Ltd" [], sampleRow uuid "Second Ltd" []] }] })
        uuid =
      some
        ({ Thing := some
             { ID := mp.IDURL uuid, APIURL := mp.APIURL uuid [], PrefLabel := "First Ltd" }
           Types := mp.TypeURIs []
           LEICode := ""
           Labels := none
           Memberships := some [] },
          true, none) := by
  simp [Read, neoReadStructToOrganisation, isSentinel, mapMemberships, sampleRow]

/-- C5: when the query succeeds and yields zero root rows (an empty result
list, or a first result whose collected list is empty), `Read` returns the
zero-value organisation, `found = false` and a nil error. -/
theorem Read_zero_rows (mp : Mapper) (db : Database) (uuid : String)
    (herr : (db uuid).err = none)
    (hzero : (db uuid).results = [] ∨
      ∃ r0 rest, (db uuid).results = r0 :: rest ∧ r0.Rs = []) :
    Read mp db uuid = some (Organisation.zero, false, none) := by
  rcases hzero with h | ⟨r0, rest, h, hrs⟩
  · simp [Read, herr, h]
  · simp [Read, herr, h, hrs]

/-- C5 at the key `abc-123`, absent from the store. -/
theorem Read_zero_rows_witness :
    Read sampleMapper (fun _ => { err := none, results := [{ Rs := [] }] }) "abc-123" =
      some (Organisation.zero, false, none) :=
  Read_zero_rows sampleMapper (fun _ => { err := none, results := [{ Rs := [] }] }) "abc-123"
    rfl (Or.inr ⟨{ Rs := [] }, [], rfl, rfl⟩)

/-- C6: when the store query returns an error, `Read` returns the zero-value
organisation, `found = false` and a non-nil error whose message contains the
requested key, whatever the result container holds. -/
theorem Read_store_error (mp : Mapper) (db : Database) (uuid : String)
    (herr : (db uuid).err ≠ none) :
    ∃ msg : String, Read mp db uuid = some (Organisation.zero, false, some msg) ∧
      uuid.data <:+: msg.data := by
  refine ⟨"Error accessing Organisation datastore for uuid: " ++ uuid, ?_, ?_⟩
  · simp [Read, herr]
  · rw [String.data_append]
    exact (List.suffix_append _ _).isInfix

/-- C6 at a store that fails with a filled result container. -/
theorem Read_store_error_witness :
    ∃ msg : String,
      Read sampleMapper
          (fun _ => { err := some "connection refused", results := [{ Rs := [sampleRow "k" "" []] }] })
          "k" = some (Organisation.zero, false, some msg) ∧
        "k".data <:+: msg.data :=
  Read_store_error sampleMapper
    (fun _ => { err := some "connection refused", results := [{ Rs := [sampleRow "k" "" []] }] })
    "k" (by simp)

/-! ## The aggregate mapper -/

/-- C2, counterexample: a row with exactly one membership entry whose person
identifier is empty, but whose membership node has an identifier, is mapped to
an aggregate with one membership. -/
theorem sentinel_by_person_id_counterexample :
    (sampleRow "org-1" "" [sampleMembership "m-1" "" [⟨"2001-01-01", ""⟩, ⟨"", ""⟩]]).M.length = 1 ∧
      (∀ neoMem ∈
          (sampleRow "org-1" "" [sampleMembership "m-1" "" [⟨"2001-01-01", ""⟩, ⟨"", ""⟩]]).M,
        neoMem.P.ID = "") ∧
      (neoReadStructToOrganisation sampleMapper
          (sampleRow "org-1" "" [sampleMembership "m-1" "" [⟨"2001-01-01", ""⟩, ⟨"", ""⟩]])).map
        (fun org => org.Memberships.map List.length) = some (some 1) := by
  refine ⟨rfl, ?_, ?_⟩
  · simp [sampleRow, sampleMembership]
  · simp [neoReadStructToOrganisation, isSentinel, mapMemberships, mapMembership, changeEvent,
      sampleRow, sampleMembership]

/-- C2, amended: for every raw row whose membership list has exactly one entry
and that entry's membership node identifier (`M.ID`) is empty,
`neoReadStructToOrganisation` returns an aggregate whose `Memberships` is the
empty sequence, whatever the other fields of the entry (the person identifier
and the change events included) are. -/
theorem sentinel_by_membership_id (mp : Mapper) (neo : neoReadStruct) (neoMem : neoMembership)
    (hM : neo.M = [neoMem]) (hID : neoMem.M.ID = "") :
    ∃ org, neoReadStructToOrganisation mp neo = some org ∧ org.Memberships = some [] := by
  apply neoReadStructToOrganisation_sentinel
  simp [isSentinel, hM, hID]

/-- C2 as amended, at an entry with a person identifier and no membership
identifier. -/
theorem sentinel_by_membership_id_witness :
    ∃ org,
      neoReadStructToOrganisation sampleMapper
          (sampleRow "org-1" "" [sampleMembership "" "p-1" []]) = some org ∧
        org.Memberships = some [] :=
  sentinel_by_membership_id sampleMapper (sampleRow "org-1" "" [sampleMembership "" "p-1" []])
    (sampleMembership "" "p-1" []) rfl rfl

/-- C3, the code at the failing input: for the pair whose start is empty and
whose end is set, `changeEvent` returns the flag `false` with an empty slice,
and the mapped membership keeps a nil `ChangeEvents`: the end event is lost. -/
theorem end_only_pair_yields_no_event (mp : Mapper) :
    changeEvent [{ StartedAt := "", EndedAt := "" }, { StartedAt := "", EndedAt := "2002-02-02" }] =
        some (false, []) ∧
      (neoReadStructToOrganisation mp
          (sampleRow "org-1" ""
            [sampleMembership "m-1" "p-1"
              [{ StartedAt := "", EndedAt := "" },
                { StartedAt := "", EndedAt := "2002-02-02" }]])).map
        (fun org => org.Memberships.map (List.map Membership.ChangeEvents)) =
        some (some [none]) := by
  constructor
  · simp [changeEvent]
  · simp [neoReadStructToOrganisation, isSentinel, mapMemberships, mapMembership, changeEvent,
      sampleRow, sampleMembership]

/-- C4: in a row that is mapped through the membership loop, the membership
whose change-event pair is `[{StartedAt: s}, {EndedAt: e}]` is mapped, at the
same index, to a membership that has no change events (the pointer stays nil)
when `s` and `e` are both empty, exactly the one event `{StartedAt: s}` when `s`
is set and `e` is empty, and exactly the two events `{StartedAt: s}`,
`{EndedAt: e}` in this order when both are set. -/
theorem change_events_of_pair (mp : Mapper) (neo : neoReadStruct) (i : Nat)
    (neoMem : neoMembership) (s e : String)
    (hsent : isSentinel neo.M = false)
    (hall : ∀ x ∈ neo.M, x.M.ChangeEvents ≠ [])
    (hi : neo.M[i]? = some neoMem)
    (hpair : neoMem.M.ChangeEvents =
      [{ StartedAt := s, EndedAt := "" }, { StartedAt := "", EndedAt := e }]) :
    ∃ (org : Organisation) (ms : List Membership) (mem : Membership),
      neoReadStructToOrganisation mp neo = some org ∧ org.Memberships = some ms ∧
        ms[i]? = some mem ∧
        (s = "" → e = "" → mem.ChangeEvents = none) ∧
        (s ≠ "" → e = "" → mem.ChangeEvents = some [{ StartedAt := s, EndedAt := "" }]) ∧
        (s ≠ "" → e ≠ "" → mem.ChangeEvents =
          some [{ StartedAt := s, EndedAt := "" }, { StartedAt := "", EndedAt := e }]) := by
  obtain ⟨ms, hms, _, hidx⟩ := mapMemberships_spec mp neo.M hall
  obtain ⟨org, horg, hmem⟩ := neoReadStructToOrganisation_loop mp neo hsent ms hms
  obtain ⟨mem, hmi, hmap⟩ := hidx i neoMem hi
  obtain ⟨_, _, _, a, b, hab, hce⟩ := mapMembership_fields mp neoMem mem hmap
  rw [hpair, changeEvent_pair] at hab
  refine ⟨org, ms, mem, horg, hmem, hmi, ?_, ?_, ?_⟩
  · intro hs _
    simp [hs] at hab
    simp [hce, hab.1]
  · intro hs he
    simp [hs, he] at hab
    simp [hce, hab.1, hab.2]
  · intro hs he
    simp [hs, he] at hab
    simp [hce, hab.1, hab.2]

/-- C4 at the membership of person `P1` with the pair
`{startedAt: "2001-01-01", endedAt: ""}`. -/
theorem change_events_of_pair_witness :
    ∃ (org : Organisation) (ms : List Membership) (mem : Membership),
      neoReadStructToOrganisation sampleMapper
          (sampleRow "org-1" ""
            [sampleMembership "m-1" "P1"
              [{ StartedAt := "2001-01-01", EndedAt := "" },
                { StartedAt := "", EndedAt := "" }]]) = some org ∧
        org.Memberships = some ms ∧ ms[0]? = some mem ∧
        (("2001-01-01" : String) = "" → ("" : String) = "" → mem.ChangeEvents = none) ∧
        (("2001-01-01" : String) ≠ "" → ("" : String) = "" →
          mem.ChangeEvents = some [{ StartedAt := "2001-01-01", EndedAt := "" }]) ∧
        (("2001-01-01" : String) ≠ "" → ("" : String) ≠ "" → mem.ChangeEvents =
          some [{ StartedAt := "2001-01-01", EndedAt := "" }, { StartedAt := "", EndedAt := "" }]) :=
  change_events_of_pair sampleMapper
    (sampleRow "org-1" ""
      [sampleMembership "m-1" "P1"
        [{ StartedAt := "2001-01-01", EndedAt := "" }, { StartedAt := "", EndedAt := "" }]])
    0
    (sampleMembership "m-1" "P1"
      [{ StartedAt := "2001-01-01", EndedAt := "" }, { StartedAt := "", EndedAt := "" }])
    "2001-01-01" "" (by decide) (by simp [sampleRow, sampleMembership]) rfl rfl

/-- C9: for every non-empty list of raw change events, `changeEvent` returns,
and every change event in the returned list has exactly one of `StartedAt` and
`EndedAt` non-empty. -/
theorem changeEvent_exactly_one_field (neoChgEvts : List neoChangeEvent)
    (hne : neoChgEvts ≠ []) :
    ∃ (a : Bool) (b : List ChangeEvent), changeEvent neoChgEvts = some (a, b) ∧
      ∀ ce ∈ b,
        (ce.StartedAt ≠ "" ∧ ce.EndedAt = "") ∨ (ce.StartedAt = "" ∧ ce.EndedAt ≠ "") := by
  cases neoChgEvts with
  | nil => exact absurd rfl hne
  | cons first rest =>
    by_cases hf : first.StartedAt = "" ∧ first.EndedAt = ""
    · exact ⟨false, [], by simp [changeEvent, hf], by simp⟩
    · refine ⟨true, changeEventLoop (first :: rest) [], by simp only [changeEvent, if_neg hf], ?_⟩
      exact changeEventLoop_exactlyOne (first :: rest) [] (by simp)

/-- C9 at a list of three raw change events. -/
theorem changeEvent_exactly_one_field_witness :
    ∃ (a : Bool) (b : List ChangeEvent),
      changeEvent
          [{ StartedAt := "2001-01-01", EndedAt := "2002-02-02" },
            { StartedAt := "", EndedAt := "" },
            { StartedAt := "2003-03-03", EndedAt := "" }] = some (a, b) ∧
        ∀ ce ∈ b,
          (ce.StartedAt ≠ "" ∧ ce.EndedAt = "") ∨ (ce.StartedAt = "" ∧ ce.EndedAt ≠ "") :=
  changeEvent_exactly_one_field
    [{ StartedAt := "2001-01-01", EndedAt := "2002-02-02" },
      { StartedAt := "", EndedAt := "" },
      { StartedAt := "2003-03-03", EndedAt := "" }]
    (by simp)

/-- C10, counterexample: a row with exactly one membership entry whose person
identifier is set (so it is not the no-memberships sentinel of the
specification, an entry with an empty person identifier) and whose change-event
list is non-empty, but whose membership node identifier is empty, is mapped to
an aggregate with no membership, although the row has one. -/
theorem memberships_length_counterexample :
    (sampleRow "org-1" "" [sampleMembership "" "p-1" [⟨"2001-01-01", ""⟩, ⟨"", ""⟩]]).M.length = 1 ∧
      (∀ neoMem ∈
          (sampleRow "org-1" "" [sampleMembership "" "p-1" [⟨"2001-01-01", ""⟩, ⟨"", ""⟩]]).M,
        neoMem.P.ID ≠ "" ∧ neoMem.M.ChangeEvents ≠ []) ∧
      (neoReadStructToOrganisation sampleMapper
          (sampleRow "org-1" "" [sampleMembership "" "p-1" [⟨"2001-01-01", ""⟩, ⟨"", ""⟩]])).map
        (fun org => org.Memberships.map List.length) = some (some 0) := by
  refine ⟨rfl, ?_, ?_⟩
  · simp [sampleRow, sampleMembership]
  · simp [neoReadStructToOrganisation, isSentinel, sampleRow, sampleMembership]

/-- C10, amended: for every raw row whose membership list is not a single entry
with an empty membership node identifier (`M.ID`) and whose memberships each
carry a non-empty change-event list, the aggregate has as many memberships as
the row, and the membership at index `i` has the title of the i-th membership
node (its `PrefLabel`) and the person whose `ID`, `APIURL` and `Types` are the
results of the mapper for, and whose `PrefLabel` is that of, the i-th
person. -/
theorem memberships_follow_query_order (mp : Mapper) (neo : neoReadStruct)
    (hrow : ∀ neoMem : neoMembership, neo.M = [neoMem] → neoMem.M.ID ≠ "")
    (hall : ∀ x ∈ neo.M, x.M.ChangeEvents ≠ []) :
    ∃ (org : Organisation) (ms : List Membership),
      neoReadStructToOrganisation mp neo = some org ∧ org.Memberships = some ms ∧
        ms.length = neo.M.length ∧
        ∀ (i : Nat) (neoMem : neoMembership), neo.M[i]? = some neoMem →
          ∃ mem : Membership, ms[i]? = some mem ∧
            mem.Title = neoMem.M.PrefLabel ∧
            mem.Person.Thing = some
              { ID := mp.IDURL neoMem.P.ID
                APIURL := mp.APIURL neoMem.P.ID neoMem.P.Types
                PrefLabel := neoMem.P.PrefLabel } ∧
            mem.Person.Types = mp.TypeURIs neoMem.P.Types := by
  have hsent : isSentinel neo.M = false := by
    cases hM : neo.M with
    | nil => rfl
    | cons x rest =>
      cases rest with
      | nil =>
        have hx := hrow x hM
        simp [isSentinel, hx]
      | cons y rest2 => rfl
  obtain ⟨ms, hms, hlen, hidx⟩ := mapMemberships_spec mp neo.M hall
  obtain ⟨org, horg, hmem⟩ := neoReadStructToOrganisation_loop mp neo hsent ms hms
  refine ⟨org, ms, horg, hmem, hlen, ?_⟩
  intro i neoMem hi
  obtain ⟨mem, hmi, hmap⟩ := hidx i neoMem hi
  obtain ⟨h1, h2, h3, _⟩ := mapMembership_fields mp neoMem mem hmap
  exact ⟨mem, hmi, h1, h2, h3⟩

/-- C10 as amended, at a row with a single membership whose node has an
identifier. -/
theorem memberships_follow_query_order_witness :
    ∃ (org : Organisation) (ms : List Membership),
      neoReadStructToOrganisation sampleMapper
          (sampleRow "org-1" ""
            [sampleMembership "m-1" "p-1" [{ StartedAt := "2001-01-01", EndedAt := "" }]]) =
          some org ∧
        org.Memberships = some ms ∧
        ms.length =
          (sampleRow "org-1" ""
            [sampleMembership "m-1" "p-1"
              [{ StartedAt := "2001-01-01", EndedAt := "" }]]).M.length ∧
        ∀ (i : Nat) (neoMem : neoMembership),
          (sampleRow "org-1" ""
            [sampleMembership "m-1" "p-1"
              [{ StartedAt := "2001-01-01", EndedAt := "" }]]).M[i]? = some neoMem →
          ∃ mem : Membership, ms[i]? = some mem ∧
            mem.Title = neoMem.M.PrefLabel ∧
            mem.Person.Thing = some
              { ID := sampleMapper.IDURL neoMem.P.ID
                APIURL := sampleMapper.APIURL neoMem.P.ID neoMem.P.Types
                PrefLabel := neoMem.P.PrefLabel } ∧
            mem.Person.Types = sampleMapper.TypeURIs neoMem.P.Types :=
  memberships_follow_query_order sampleMapper
    (sampleRow "org-1" ""
      [sampleMembership "m-1" "p-1" [{ StartedAt := "2001-01-01", EndedAt := "" }]])
    (by
      intro neoMem h
      simp only [sampleRow, List.cons.injEq, and_true] at h
      subst h
      simp [sampleMembership])
    (by simp [sampleRow, sampleMembership])

/-- C8: the aggregate `neoReadStructToOrganisation` returns always has a
non-nil `Memberships`; the function returns, with `Memberships` the empty
sequence, when the membership list of the row is empty and when it is a single
entry all of whose fields are empty (the placeholder of the optional match), so
that no membership is built from the placeholder.  The function returns exactly
for the rows that are the sentinel or whose memberships all carry a non-empty
change-event list. -/
theorem memberships_never_nil (mp : Mapper) (neo : neoReadStruct) :
    (∀ org, neoReadStructToOrganisation mp neo = some org →
        ∃ ms, org.Memberships = some ms) ∧
      (neo.M = [] →
        ∃ org, neoReadStructToOrganisation mp neo = some org ∧ org.Memberships = some []) ∧
      (∀ neoMem, neo.M = [neoMem] → isPlaceholder neoMem →
        ∃ org, neoReadStructToOrganisation mp neo = some org ∧ org.Memberships = some []) ∧
      ((neoReadStructToOrganisation mp neo).isSome = true ↔
        (isSentinel neo.M = true ∨ ∀ x ∈ neo.M, x.M.ChangeEvents ≠ [])) := by
  refine ⟨?_, ?_, ?_, ?_⟩
  · intro org horg
    by_cases hs : isSentinel neo.M = true
    · obtain ⟨org2, h1, h2⟩ := neoReadStructToOrganisation_sentinel mp neo hs
      rw [h1] at horg
      cases horg
      exact ⟨[], h2⟩
    · have hs2 : isSentinel neo.M = false := by simpa using hs
      cases hms : mapMemberships mp neo.M with
      | none => simp [neoReadStructToOrganisation, hs2, hms] at horg
      | some ms =>
        obtain ⟨org2, h1, h2⟩ := neoReadStructToOrganisation_loop mp neo hs2 ms hms
        rw [h1] at horg
        cases horg
        exact ⟨ms, h2⟩
  · intro hM
    have hs : isSentinel neo.M = false := by simp [isSentinel, hM]
    exact neoReadStructToOrganisation_loop mp neo hs [] (by simp [hM, mapMemberships])
  · intro neoMem hM hp
    apply neoReadStructToOrganisation_sentinel
    simp [isSentinel, hM, hp.1]
  · constructor
    · intro hsome
      by_cases hs : isSentinel neo.M = true
      · exact Or.inl hs
      · right
        have hs2 : isSentinel neo.M = false := by simpa using hs
        intro x hx hxe
        have hnone := mapMemberships_none mp neo.M ⟨x, hx, hxe⟩
        simp [neoReadStructToOrganisation, hs2, hnone] at hsome
    · rintro (hs | hall)
      · obtain ⟨org, h1, _⟩ := neoReadStructToOrganisation_sentinel mp neo hs
        simp [h1]
      · by_cases hs : isSentinel neo.M = true
        · obtain ⟨org, h1, _⟩ := neoReadStructToOrganisation_sentinel mp neo hs
          simp [h1]
        · have hs2 : isSentinel neo.M = false := by simpa using hs
          obtain ⟨ms, hms, _⟩ := mapMemberships_spec mp neo.M hall
          obtain ⟨org, h1, _⟩ := neoReadStructToOrganisation_loop mp neo hs2 ms hms
          simp [h1]

/-! ## Lemmas on the string helpers -/

theorem containsChars_iff_infix (substr s : List Char) :
    containsChars substr s = true ↔ substr <:+: s := by
  induction s with
  | nil => simp [containsChars, List.isEmpty_iff]
  | cons c cs ih =>
    simp only [containsChars, Bool.or_eq_true, List.isPrefixOf_iff_prefix, ih,
      List.infix_cons_iff]

theorem stringsContains_eq_false_iff (s substr : String) :
    stringsContains s substr = false ↔ ¬ substr.data <:+: s.data := by
  rw [← containsChars_iff_infix]
  simp [stringsContains]

theorem replaceFirstChars_at_head (old new post : List Char) :
    replaceFirstChars old new (old ++ post) = new ++ post := by
  cases h : old ++ post with
  | nil =>
    have h1 : old = [] := (List.append_eq_nil.mp h).1
    have h2 : post = [] := (List.append_eq_nil.mp h).2
    simp [replaceFirstChars, h1, h2]
  | cons c cs =>
    have hp : old.isPrefixOf (c :: cs) = true := by
      rw [List.isPrefixOf_iff_prefix, ← h]
      exact List.prefix_append _ _
    simp only [replaceFirstChars, hp, if_true]
    rw [← h, List.drop_left]

/-- When the text is `pre ++ old ++ post` and `old` does not occur at any
position before the end of `pre`, the replacement of the first occurrence acts
on the occurrence after `pre`. -/
theorem replaceFirstChars_first_occurrence (old new post : List Char) :
    ∀ pre : List Char,
      (∀ k, k < pre.length → ¬ old <+: (pre ++ old ++ post).drop k) →
      replaceFirstChars old new (pre ++ old ++ post) = pre ++ new ++ post := by
  intro pre
  induction pre with
  | nil =>
    intro _
    simpa using replaceFirstChars_at_head old new post
  | cons c cs ih =>
    intro h
    have hhead : ¬ old <+: c :: (cs ++ old ++ post) := by
      simpa using h 0 (by simp)
    have hp : old.isPrefixOf (c :: (cs ++ old ++ post)) = false := by
      rw [← Bool.not_eq_true, List.isPrefixOf_iff_prefix]
      exact hhead
    have htail : replaceFirstChars old new (cs ++ old ++ post) = cs ++ new ++ post := by
      apply ih
      intro k hk
      simpa using h (k + 1) (by simpa using hk)
    have hstep : replaceFirstChars old new (c :: (cs ++ old ++ post)) =
        c :: replaceFirstChars old new (cs ++ old ++ post) := by
      simp only [replaceFirstChars, hp]
      simp
    change replaceFirstChars old new (c :: (cs ++ old ++ post)) = c :: (cs ++ new ++ post)
    rw [hstep, htail]

theorem replaceFirstChars_no_occurrence (old new : List Char) :
    ∀ s : List Char, ¬ old <:+: s → replaceFirstChars old new s = s := by
  intro s
  induction s with
  | nil =>
    intro h
    have hne : old ≠ [] := fun h0 => h (by simp [h0])
    have : old.isEmpty = false := by
      cases old with
      | nil => exact absurd rfl hne
      | cons _ _ => rfl
    simp [replaceFirstChars, this]
  | cons c cs ih =>
    intro h
    rw [List.infix_cons_iff, not_or] at h
    have hp : old.isPrefixOf (c :: cs) = false := by
      rw [← Bool.not_eq_true, List.isPrefixOf_iff_prefix]
      exact h.1
    simp only [replaceFirstChars, hp, ih h.2]
    simp

theorem takeHex_length (n : Nat) :
    ∀ cs rest : List Char, takeHex n cs = some rest → cs.length = n + rest.length := by
  induction n with
  | zero =>
    intro cs rest h
    simp [takeHex] at h
    simp [h]
  | succ k ih =>
    intro cs rest h
    cases cs with
    | nil => simp [takeHex] at h
    | cons c cs2 =>
      by_cases hc : isHexDigit c = true
      · simp only [takeHex, hc, if_true] at h
        have := ih cs2 rest h
        simp [this]
        omega
      · simp [takeHex, hc] at h

theorem takeDash_length (cs rest : List Char) (h : takeDash cs = some rest) :
    cs.length = 1 + rest.length := by
  cases cs with
  | nil => simp [takeDash] at h
  | cons c cs2 =>
    by_cases hc : c = '-'
    · simp [takeDash, hc] at h
      simp [h]
      omega
    · simp [takeDash, hc] at h

/-- A text the pattern `validUUID` matches from its head to its end has 36
characters. -/
theorem matchValidUUID_length (cs : List Char) (h : matchValidUUID cs = true) :
    cs.length = 36 := by
  simp only [matchValidUUID, beq_iff_eq, Option.bind_eq_bind, Option.bind_eq_some] at h
  obtain ⟨r8, ⟨r7, ⟨r6, ⟨r5, ⟨r4, ⟨r3, ⟨r2, ⟨r1, h1, h2⟩, h3⟩, h4⟩, h5⟩, h6⟩, h7⟩, h8⟩, h9⟩ := h
  have e1 := takeHex_length _ _ _ h1
  have e2 := takeDash_length _ _ h2
  have e3 := takeHex_length _ _ _ h3
  have e4 := takeDash_length _ _ h4
  have e5 := takeHex_length _ _ _ h5
  have e6 := takeDash_length _ _ h6
  have e7 := takeHex_length _ _ _ h7
  have e8 := takeDash_length _ _ h8
  have e9 := takeHex_length _ _ _ h9
  simp at e9
  omega

/-- The pattern is anchored at the end of the text: in a text that ends with a
UUID-shaped string the match is that ending. -/
theorem findValidUUIDChars_suffix (u : List Char) (hu : matchValidUUID u = true) :
    ∀ base : List Char, findValidUUIDChars (base ++ u) = u := by
  have hlen := matchValidUUID_length u hu
  intro base
  induction base with
  | nil =>
    cases u with
    | nil => simp at hlen
    | cons c cs => simp [findValidUUIDChars, hu]
  | cons b bs ih =>
    have hno : matchValidUUID (b :: (bs ++ u)) = false := by
      rw [← Bool.not_eq_true]
      intro hm
      have := matchValidUUID_length _ hm
      simp at this
      omega
    simp [findValidUUIDChars, hno, ih]

/-- In a text none of whose endings is UUID-shaped the pattern finds nothing. -/
theorem findValidUUIDChars_none :
    ∀ s : List Char, (∀ t, t <:+ s → matchValidUUID t = false) → findValidUUIDChars s = [] := by
  intro s
  induction s with
  | nil => intro _; rfl
  | cons c cs ih =>
    intro h
    have h0 := h (c :: cs) (List.suffix_refl _)
    simp only [findValidUUIDChars, h0]
    simp only [Bool.false_eq_true, if_false]
    apply ih
    intro t ht
    exact h t (ht.trans (List.suffix_cons _ _))

/-! ## The redirect policy of the handler -/

/-- C7, counterexample.  First request: the key `org` also occurs earlier in
the request URI `/organisations/org`, and the redirect replaces that earlier
occurrence, not the uuid path segment.  Second request: the identifier contains
the UUID but does not end with it, the anchored pattern finds nothing, and the
alias is replaced by the empty string. -/
theorem redirect_location_counterexample :
    (stringsContains "http://api.ft.com/things/11111111-2222-3333-4444-555555555555" "org" = false ∧
      (GetOrganisation
          (sampleDriver "http://api.ft.com/things/11111111-2222-3333-4444-555555555555") ""
          sampleEncode ResponseWriter.fresh
          { Vars := [("uuid", "org")], RequestURI := "/organisations/org" }).map
        (fun w => (w.status, w.headerGet "Location")) =
        some (some 301, some "/11111111-2222-3333-4444-555555555555anisations/org") ∧
      ("/11111111-2222-3333-4444-555555555555anisations/org" : String) ≠
        "/organisations/11111111-2222-3333-4444-555555555555") ∧
    (stringsContains "http://api.ft.com/things/11111111-2222-3333-4444-555555555555/profile"
        "11111111-2222-3333-4444-555555555555" = true ∧
      stringsContains "http://api.ft.com/things/11111111-2222-3333-4444-555555555555/profile"
        "alias-1" = false ∧
      (GetOrganisation
          (sampleDriver "http://api.ft.com/things/11111111-2222-3333-4444-555555555555/profile") ""
          sampleEncode ResponseWriter.fresh
          { Vars := [("uuid", "alias-1")], RequestURI := "/organisations/alias-1" }).map
        (fun w => (w.status, w.headerGet "Location")) =
        some (some 301, some "/organisations/") ∧
      ("/organisations/" : String) ≠ "/organisations/11111111-2222-3333-4444-555555555555") := by
  refine ⟨⟨by decide, by decide, by decide⟩, by decide, by decide, by decide, by decide⟩

/-- C7, amended: for every request whose read succeeds (found, no error) and
whose requested key is not a substring of the aggregate's `ID`,
`GetOrganisation` answers with status 301 and no body, and `Location` is the
request URI in which the first occurrence of the requested key is replaced by
what the pattern `validUUID` finds in `ID`.  The pattern is anchored at the end
of `ID`: it finds the UUID-shaped ending of `ID`, and nothing (the empty
string) when no ending of `ID` is UUID-shaped.  A request URI in which the key
does not occur is the `Location` unchanged.  In particular, when `ID` ends
with a UUID and the request URI is `pre ++ key ++ post` with no occurrence of
the key starting inside `pre`, `Location` is `pre ++ UUID ++ post`. -/
theorem redirect_to_canonical (driver : Driver) (cacheControl : String)
    (jsonEncode : Organisation → Except String String) (r : Request)
    (org : Organisation) (ID : String)
    (hread : driver (mapIndex r.Vars "uuid") = some (org, true, none))
    (hID : org.ID = some ID)
    (hnot : ¬ (mapIndex r.Vars "uuid").data <:+: ID.data) :
    ∃ w : ResponseWriter,
      GetOrganisation driver cacheControl jsonEncode ResponseWriter.fresh r = some w ∧
        w.status = some 301 ∧ w.body = "" ∧
        w.headerGet "Location" =
          some (stringsReplace1 r.RequestURI (mapIndex r.Vars "uuid") (findStringValidUUID ID)) ∧
        (∀ base canonical : String, ID = base ++ canonical →
          matchValidUUID canonical.data = true → findStringValidUUID ID = canonical) ∧
        ((∀ t, t <:+ ID.data → matchValidUUID t = false) → findStringValidUUID ID = "") ∧
        (¬ (mapIndex r.Vars "uuid").data <:+: r.RequestURI.data →
          w.headerGet "Location" = some r.RequestURI) ∧
        (∀ base canonical pre post : String, ID = base ++ canonical →
          matchValidUUID canonical.data = true →
          r.RequestURI = pre ++ mapIndex r.Vars "uuid" ++ post →
          (∀ k, k < pre.data.length →
            ¬ (mapIndex r.Vars "uuid").data <+: r.RequestURI.data.drop k) →
          w.headerGet "Location" = some (pre ++ canonical ++ post)) := by
  have hkey : mapIndex r.Vars "uuid" ≠ "" := by
    intro h0
    apply hnot
    rw [h0]
    exact List.nil_infix
  have hcontains : stringsContains ID (mapIndex r.Vars "uuid") = false :=
    (stringsContains_eq_false_iff _ _).mpr hnot
  have hfind : ∀ base canonical : String, ID = base ++ canonical →
      matchValidUUID canonical.data = true → findStringValidUUID ID = canonical := by
    intro base canonical hbase hm
    apply String.ext
    simp only [findStringValidUUID, hbase, String.data_append]
    exact findValidUUIDChars_suffix canonical.data hm base.data
  refine ⟨((ResponseWriter.fresh.headerSet "Content-Type"
      "application/json; charset=UTF-8").headerSet "Location"
        (stringsReplace1 r.RequestURI (mapIndex r.Vars "uuid")
          (findStringValidUUID ID))).WriteHeader 301, ?_, ?_, ?_, ?_, hfind, ?_, ?_, ?_⟩
  · simp only [GetOrganisation, if_neg hkey, hread, hID, hcontains, if_true]
    simp
  · rfl
  · rfl
  · simp [ResponseWriter.headerGet, ResponseWriter.headerSet, ResponseWriter.WriteHeader,
      ResponseWriter.fresh]
  · intro hnone
    apply String.ext
    simp only [findStringValidUUID]
    exact findValidUUIDChars_none ID.data hnone
  · intro hno
    have hloc : stringsReplace1 r.RequestURI (mapIndex r.Vars "uuid") (findStringValidUUID ID) =
        r.RequestURI := by
      apply String.ext
      simp only [stringsReplace1]
      exact replaceFirstChars_no_occurrence _ _ _ hno
    simp [ResponseWriter.headerGet, ResponseWriter.headerSet, ResponseWriter.WriteHeader,
      ResponseWriter.fresh, hloc]
  · intro base canonical pre post hbase hm huri hfirst
    have hloc : stringsReplace1 r.RequestURI (mapIndex r.Vars "uuid") (findStringValidUUID ID) =
        pre ++ canonical ++ post := by
      apply String.ext
      rw [hfind base canonical hbase hm]
      simp only [stringsReplace1, String.data_append]
      rw [huri] at hfirst ⊢
      simp only [String.data_append] at hfirst ⊢
      exact replaceFirstChars_first_occurrence _ _ _ pre.data hfirst
    simp [ResponseWriter.headerGet, ResponseWriter.headerSet, ResponseWriter.WriteHeader,
      ResponseWriter.fresh, hloc]

/-- C7 as amended, at the request of an alias key for an organisation whose
identifier ends with the UUID `11111111-2222-3333-4444-555555555555`. -/
theorem redirect_to_canonical_witness :
    ∃ w : ResponseWriter,
      GetOrganisation
          (sampleDriver "http://api.ft.com/things/11111111-2222-3333-4444-555555555555") "no-cache"
          sampleEncode ResponseWriter.fresh
          { Vars := [("uuid", "alias-1")], RequestURI := "/organisations/alias-1" } = some w ∧
        w.status = some 301 ∧ w.body = "" ∧
        w.headerGet "Location" = some "/organisations/11111111-2222-3333-4444-555555555555" := by
  obtain ⟨w, h1, h2, h3, _, _, _, _, h7⟩ :=
    redirect_to_canonical
      (sampleDriver "http://api.ft.com/things/11111111-2222-3333-4444-555555555555") "no-cache"
      sampleEncode { Vars := [("uuid", "alias-1")], RequestURI := "/organisations/alias-1" }
      { Thing := some
          { ID := "http://api.ft.com/things/11111111-2222-3333-4444-555555555555"
            APIURL := "", PrefLabel := "" }
        Types := some [], LEICode := "", Labels := none, Memberships := some [] }
      "http://api.ft.com/things/11111111-2222-3333-4444-555555555555" rfl rfl
      ((stringsContains_eq_false_iff _ _).mp (by decide))
  refine ⟨w, h1, h2, h3, ?_⟩
  refine h7 "http://api.ft.com/things/" "11111111-2222-3333-4444-555555555555"
    "/organisations/" "" (by decide) (by decide) (by decide) ?_
  intro k hk
  rw [← List.isPrefixOf_iff_prefix]
  revert k
  decide

end PublicOrganisationApi

